import Mathlib

/-!
Verification of the eino-ext Milvus indexer/retriever component.

The Go sources are shallowly embedded: pure helpers become Lean functions,
the `Store`/`Retrieve` pipelines become functions that also record the calls
they issue to the external Milvus client (upserts, searches) so that claims
about "which calls are issued" are statable.  Machine floats (`float64`,
`float32`) only flow through the code unchanged (no arithmetic is performed
on them by the component), so their carrier is modelled by an opaque scalar
(`Int`); the `float64 -> float32` narrowing is the identity on this carrier.
Go pairs `(value, error)` become `Except`; a Go runtime panic (nil
pointer dereference, out-of-range index) is modelled by a dedicated error
constructor so that crashes are distinguishable from returned errors.
-/

/-- Carrier standing in for Go `float64` (values are only passed through). -/
abbrev F64 := Int

/-- Carrier standing in for Go `float32` (values are only passed through). -/
abbrev F32 := Int

/-- The `float64(..)`/`float32(..)` narrowing conversions; value-level only,
never branched on by the component, hence the identity on the carrier. -/
def f64ToF32 (x : F64) : F32 := x

/-- Go `schema.Document` restricted to the fields the indexer reads (`ID`,
`Content`); metadata and score are write-only on the retrieval side. -/
structure Doc where
  id : String
  content : String
deriving Repr, DecidableEq

/-- The scalar-filter DSL map (`map[string]any`), modelled opaquely as an
association list: the component never inspects it, only forwards it. -/
abbrev DSL := List (String × String)

/-- An embedding provider: `EmbedStrings(ctx, texts) ([][]float64, error)`. -/
abbrev Embedder := List String → Except String (List (List F64))

-- Constants from the source (`const typ = "Milvus"` block).
def typ : String := "Milvus"

def defaultFieldID : String := "ID"
def defaultFieldVector : String := "vector"
def defaultFieldSparseVector : String := "sparse_vector"
def defaultFieldContent : String := "content"

def defaultAddBatchSize : Int := 5
def defaultVectorDim : Int := 1024
def defaultIdMaxLen : Int := 64

def defaultTopK : Int := 100
def defaultPartition : String := "default"
def defaultDenseWeight : F64 := 5

/-- Modelled from the spec: the retriever references constants
`defaultReturnFieldID` / `defaultReturnFieldContent` whose defining
declaration is not among the provided sources; the spec fixes the schema
field names requested from the store as `ID` and `content`. -/
def defaultReturnFieldID : String := "ID"

/-- Modelled from the spec: see `defaultReturnFieldID`. -/
def defaultReturnFieldContent : String := "content"

/-- The while-loop of `chunk` (`for size < len(slice) { ... }`).  Each iteration
removes `size ≥ 1` elements, so `slice.length` bounds the iteration count;
the loop is rendered with that explicit bound as fuel.  After the loop the
non-empty remainder, if any, becomes the final chunk. -/
def chunkGo (size : Nat) : Nat → List α → List (List α)
  | 0, slice => if 0 < slice.length then [slice] else []
  | fuel + 1, slice =>
    if size < slice.length then
      slice.take size :: chunkGo size fuel (slice.drop size)
    else if 0 < slice.length then [slice] else []

/-- Go `chunk[T any](slice []T, size int) [][]T`: returns `nil` for
`size <= 0`, otherwise splits `slice` into consecutive runs of `size`
elements, the last run holding the (non-empty) remainder. -/
def chunk (slice : List α) (size : Int) : List (List α) :=
  if size ≤ 0 then [] else chunkGo size.toNat slice.length slice

/-- Go `iter[T, D any](src []T, fn func(T) D) []D` is a plain map. -/
def iter (src : List α) (fn : α → β) : List β := src.map fn

-- ===========================================================================
-- Error taxonomy (Go `error` values, by provenance)
-- ===========================================================================

/-- Errors produced while embedding a batch (`customEmbedding`).
`nilEmbedderPanic` models the nil-interface-method panic that a call with no
configured embedder would hit; `upstream` wraps the error of the provider itself;
`countMismatch` is the `invalid return length of vector` check. -/
inductive EmbedErr where
  | nilEmbedderPanic
  | upstream (msg : String)
  | countMismatch
deriving Repr, DecidableEq

/-- Errors returned by `Indexer.Store`: each wraps the underlying cause with
the step context the source attaches (`convertDocuments failed: %w`,
`Upsert failed: %v`). -/
inductive StoreErr where
  | convertFailed (e : EmbedErr)
  | upsertFailed (msg : String)
deriving Repr, DecidableEq

/-- Errors from `Retriever.data2Document`.  `fieldNotMatch` is the literal
`result field not math` error of the source (missing/non-varchar column or zero rows);
`valueByIdx` propagates a column index-out-of-range error; `scoresPanic`
models the `data.Scores[0]` index panic on an empty score slice. -/
inductive DecodeErr where
  | fieldNotMatch
  | valueByIdx
  | scoresPanic
deriving Repr, DecidableEq

/-- Errors (and panics) surfacing from `Retriever.Retrieve`. -/
inductive RErr where
  | embed (e : EmbedErr)
  | nilTopKPanic
  | searchFailed (msg : String)
  | decode (e : DecodeErr)
deriving Repr, DecidableEq

deriving instance DecidableEq for Except

-- ===========================================================================
-- Indexer
-- ===========================================================================

/-- The columnar batch handed to `client.Upsert` (field names included, as
built by `entity.NewColumnVarChar` / `NewColumnFloatVector`). -/
structure Columns where
  idName : String
  ids : List String
  contentName : String
  contents : List String
  vectorName : String
  dim : Int
  vectors : List (List F32)
deriving Repr, DecidableEq

/-- Go `IndexerConfig`, restricted to the fields the pipeline logic reads. -/
structure IndexerConfig where
  collection : String
  useBuiltin : Bool
  vectorDim : Int
  idMaxLen : Int
  embedding : Option Embedder
  addBatchSize : Int

/-- The embedding-source validation at the head of `NewIndexer`. -/
def newIndexerCheck (config : IndexerConfig) : Except String Unit :=
  if config.useBuiltin && config.embedding.isSome then
    .error "[MilvusDBIndexer] no need to provide Embedding when UseBuiltin embedding is true"
  else if !config.useBuiltin && config.embedding.isNone then
    .error "[MilvusDBIndexer] need provide Embedding when UseBuiltin embedding is false"
  else .ok ()

/-- The in-place default application in `NewIndexer`: each numeric field is
replaced by its default exactly when the configured value is zero. -/
def resolveIndexerConfig (config : IndexerConfig) : IndexerConfig :=
  { config with
    addBatchSize := if config.addBatchSize = 0 then defaultAddBatchSize else config.addBatchSize,
    vectorDim := if config.vectorDim = 0 then defaultVectorDim else config.vectorDim,
    idMaxLen := if config.idMaxLen = 0 then defaultIdMaxLen else config.idMaxLen }

/-- Caller-supplied `indexer.Option`s relevant to the pipeline. -/
structure ICallerOpts where
  embedding : Option Embedder := none

/-- Modelled from the library contract the spec states: overlaying
caller-supplied options onto the configured defaults
(`indexer.GetCommonOptions`). -/
def indexerEffectiveEmbedding (config : IndexerConfig) (co : ICallerOpts) : Option Embedder :=
  co.embedding.orElse (fun _ => config.embedding)

/-- Go `Indexer.customEmbedding`: embeds the batch queries and enforces the
count invariant `len(tempVectors) == len(queries)`, then narrows each
component to `float32`. -/
def customEmbeddingI (embOpt : Option Embedder) (queries : List String) :
    Except EmbedErr (List (List F32)) :=
  match embOpt with
  | none => .error .nilEmbedderPanic
  | some emb =>
    match emb queries with
    | .error m => .error (.upstream m)
    | .ok tempVectors =>
      if tempVectors.length ≠ queries.length then .error .countMismatch
      else .ok (tempVectors.map (fun values => values.map f64ToF32))

/-- Go `Indexer.convertDocuments`: content extraction, embedding, then column
assembly (`entity.NewColumnVarChar`/`NewColumnFloatVector` with the
configured vector dimension). -/
def convertDocuments (embOpt : Option Embedder) (dim : Int) (docs : List Doc) :
    Except EmbedErr Columns :=
  match customEmbeddingI embOpt (iter docs (fun doc => doc.content)) with
  | .error e => .error e
  | .ok vectors =>
    .ok { idName := defaultFieldID, ids := docs.map (fun d => d.id),
          contentName := defaultFieldContent, contents := docs.map (fun d => d.content),
          vectorName := defaultFieldVector, dim := dim, vectors := vectors }

/-- Observable outcome of one `Store` call: the embedding calls issued (one
per batch reached), the upsert calls issued, and the Go `(ids, err)` result
(`Except`: on error the source returns `nil` ids). -/
structure StoreRun where
  embedCalls : List (List String)
  upsertCalls : List Columns
  result : Except StoreErr (List String)
deriving Repr, DecidableEq

/-- The per-batch loop body of `Indexer.Store`: convert (embed + encode),
upsert, accumulate IDs; the first failing step aborts the whole call with a
wrapped error and `nil` IDs. -/
def storeBatches (embOpt : Option Embedder) (dim : Int)
    (upsertFn : Columns → Except String Unit) : List (List Doc) → StoreRun
  | [] => ⟨[], [], .ok []⟩
  | b :: rest =>
    match convertDocuments embOpt dim b with
    | .error e => ⟨[iter b (fun doc => doc.content)], [], .error (.convertFailed e)⟩
    | .ok cols =>
      match upsertFn cols with
      | .error m => ⟨[iter b (fun doc => doc.content)], [cols], .error (.upsertFailed m)⟩
      | .ok _ =>
        let r := storeBatches embOpt dim upsertFn rest
        ⟨iter b (fun doc => doc.content) :: r.embedCalls, cols :: r.upsertCalls,
         match r.result with
         | .ok ids => .ok (iter b (fun t => t.id) ++ ids)
         | .error e => .error e⟩

/-- Go `Indexer.Store`: resolves the effective embedder from the options
overlay, batches the documents with the configured batch size, and runs the
per-batch loop.  `upsertFn` stands for `client.Upsert` (external store). -/
def Store (config : IndexerConfig) (upsertFn : Columns → Except String Unit)
    (docs : List Doc) (co : ICallerOpts) : StoreRun :=
  storeBatches (indexerEffectiveEmbedding config co) config.vectorDim upsertFn
    (chunk docs config.addBatchSize)

/-- Success of a single batch (its conversion and its upsert both succeed):
the condition under which the `Store` loop proceeds past the batch. -/
def batchOk (embOpt : Option Embedder) (dim : Int)
    (upsertFn : Columns → Except String Unit) (b : List Doc) : Prop :=
  ∃ cols, convertDocuments embOpt dim b = .ok cols ∧ upsertFn cols = .ok ()

/-- The columns a batch would be upserted as, when its conversion succeeds. -/
def colsOf (embOpt : Option Embedder) (dim : Int) (b : List Doc) : Option Columns :=
  (convertDocuments embOpt dim b).toOption

-- ===========================================================================
-- Retriever
-- ===========================================================================

/-- Go `RetrieverConfig`, restricted to the fields the pipeline logic reads;
optional fields are Go pointers (`nil` = `none`). -/
structure RetrieverConfig where
  collection : String
  index : String
  useBuiltin : Bool
  embedding : Option Embedder
  partition : String
  topK : Option Int
  scoreThreshold : Option F64
  filterDSL : Option DSL

/-- The embedding-source validation at the head of `NewRetriever`. -/
def newRetrieverCheck (config : RetrieverConfig) : Except String Unit :=
  if config.useBuiltin && config.embedding.isSome then
    .error "[VikingDBRetriever] no need to provide Embedding when UseBuiltin embedding is true"
  else if !config.useBuiltin && config.embedding.isNone then
    .error "[VikingDBRetriever] need provide Embedding when UseBuiltin embedding is false"
  else .ok ()

/-- The in-place partition default in `NewRetriever`:
`if len(config.Partition) == 0 { config.Partition = defaultPartition }`. -/
def resolvePartition (partition : String) : String :=
  if partition.length = 0 then defaultPartition else partition

/-- The resolved `retriever.Options` value (`Embedding` is the provider). -/
structure ROptions where
  index : Option String
  subIndex : Option String
  topK : Option Int
  scoreThreshold : Option F64
  embedding : Option Embedder
  dslInfo : Option DSL

/-- The base options `Retrieve` seeds from its configuration. -/
def baseROptions (config : RetrieverConfig) : ROptions :=
  { index := some config.index, subIndex := some config.partition,
    topK := config.topK, scoreThreshold := config.scoreThreshold,
    embedding := config.embedding, dslInfo := config.filterDSL }

/-- Caller-supplied `retriever.Option`s (each `WithX` sets one field). -/
structure RCallerOpts where
  index : Option String := none
  subIndex : Option String := none
  topK : Option Int := none
  scoreThreshold : Option F64 := none
  embedding : Option Embedder := none
  dslInfo : Option DSL := none

/-- Modelled from the library contract the spec states: overlaying
caller-supplied options onto the configured defaults
(`retriever.GetCommonOptions`). -/
def getCommonOptions (base : ROptions) (co : RCallerOpts) : ROptions :=
  { index := co.index.orElse (fun _ => base.index),
    subIndex := co.subIndex.orElse (fun _ => base.subIndex),
    topK := co.topK.orElse (fun _ => base.topK),
    scoreThreshold := co.scoreThreshold.orElse (fun _ => base.scoreThreshold),
    embedding := co.embedding.orElse (fun _ => base.embedding),
    dslInfo := co.dslInfo.orElse (fun _ => base.dslInfo) }

/-- Go `Retriever.customEmbedding`: embeds the single query, enforces the
`len(tempVectors) == 1` invariant, and narrows the first vector. -/
def customEmbeddingR (query : String) (options : ROptions) :
    Except RErr (List F32) :=
  match options.embedding with
  | none => .error (.embed .nilEmbedderPanic)
  | some emb =>
    match emb [query] with
    | .error m => .error (.embed (.upstream m))
    | .ok tempVectors =>
      if tempVectors.length ≠ 1 then .error (.embed .countMismatch)
      else .ok ((tempVectors.headD []).map f64ToF32)

/-- One result column as the SDK exposes it: either a `*ColumnVarChar`
(string values) or some other column type. -/
inductive ColumnData where
  | varChar (values : List String)
  | other
deriving Repr, DecidableEq

/-- A named field of a `client.SearchResult`. -/
structure RField where
  name : String
  data : ColumnData
deriving Repr, DecidableEq

/-- Go `client.SearchResult`, restricted to what `data2Document` reads. -/
structure SearchResult where
  resultCount : Nat
  fields : List RField
  scores : List F32
deriving Repr, DecidableEq

/-- SDK `entity.ColumnVarChar.ValueByIdx`: the value at `idx`, or an
error when `idx` is out of range. -/
def valueByIdx (values : List String) (idx : Nat) : Except String String :=
  match values[idx]? with
  | some v => .ok v
  | none => .error "index out of range"

/-- One step of the field-scanning loop of `data2Document` (the two
type-asserting `if` branches of the `for` loop body): a varchar column
named `defaultReturnFieldID` (resp. `defaultReturnFieldContent`) replaces
the corresponding accumulator slot; any other field leaves it unchanged. -/
def pickStep (acc : Option (List String) × Option (List String)) (field : RField) :
    Option (List String) × Option (List String) :=
  if field.name == defaultReturnFieldID then
    match field.data with
    | .varChar c => (some c, acc.2)
    | .other => acc
  else if field.name == defaultReturnFieldContent then
    match field.data with
    | .varChar c => (acc.1, some c)
    | .other => acc
  else acc

/-- The field-scanning loop of `data2Document`: the last varchar column
with a matching name wins; non-varchar columns are skipped. -/
def pickVarCharColumns (fields : List RField) :
    Option (List String) × Option (List String) :=
  fields.foldl pickStep (none, none)

/-- A retrieved `schema.Document`: metadata is only ever the DSL info the
pipeline attaches (`WithDSLInfo`), the score is attached by `WithScore`. -/
structure RDoc where
  id : String
  content : String
  score : F64
  dslInfo : Option DSL
deriving Repr, DecidableEq

/-- Go `Retriever.data2Document`: pick the ID/content varchar columns, reject
missing columns and empty results, then build one document from row 0 of
each column and `Scores[0]`. -/
def data2Document (data : SearchResult) : Except DecodeErr RDoc :=
  match pickVarCharColumns data.fields with
  | (some idColumn, some contentColumn) =>
    if data.resultCount = 0 then .error .fieldNotMatch
    else
      match valueByIdx idColumn 0 with
      | .error _ => .error .valueByIdx
      | .ok id =>
        match valueByIdx contentColumn 0 with
        | .error _ => .error .valueByIdx
        | .ok content =>
          match data.scores[0]? with
          | none => .error .scoresPanic
          | some s => .ok { id := id, content := content, score := s, dslInfo := none }
  | _ => .error .fieldNotMatch

/-- One `client.Search` invocation, with every argument the source passes. -/
structure SearchCall where
  collection : String
  partitions : List String
  expr : String
  outputFields : List String
  vectors : List (List F32)
  vectorField : String
  metric : String
  topK : Int
deriving Repr, DecidableEq

/-- The result-decoding loop of `Retrieve` (lines 186–194): decode each
search result, attach the resolved DSL info, abort on the first failure. -/
def decodeResults (dsl : Option DSL) : List SearchResult → Except DecodeErr (List RDoc)
  | [] => .ok []
  | data :: rest =>
    match data2Document data with
    | .error e => .error e
    | .ok doc =>
      match decodeResults dsl rest with
      | .error e => .error e
      | .ok docs => .ok ({ doc with dslInfo := dsl } :: docs)

/-- Observable outcome of one `Retrieve` call: the search calls issued and
the Go `(docs, err)` result. -/
structure RetrieveRun where
  searchCalls : List SearchCall
  result : Except RErr (List RDoc)
deriving Repr, DecidableEq

/-- Go `Retriever.Retrieve`: resolve options, embed the query, then issue the
search with the arguments of the source call — collection from the config,
an empty partition list, empty expression, the two return fields, the dense
vector, `entity.L2`, and `*r.config.TopK` as the limit (dereferencing the
raw config pointer: `none` is a nil-pointer panic).  `searchFn` stands for
`client.Search` (external store). -/
def Retrieve (config : RetrieverConfig)
    (searchFn : SearchCall → Except String (List SearchResult))
    (query : String) (co : RCallerOpts) : RetrieveRun :=
  let options := getCommonOptions (baseROptions config) co
  match customEmbeddingR query options with
  | .error e => ⟨[], .error e⟩
  | .ok dense =>
    match config.topK with
    | none => ⟨[], .error .nilTopKPanic⟩
    | some k =>
      let call : SearchCall :=
        { collection := config.collection, partitions := [], expr := "",
          outputFields := [defaultReturnFieldID, defaultReturnFieldContent],
          vectors := [dense], vectorField := defaultFieldVector,
          metric := "L2", topK := k }
      match searchFn call with
      | .error m => ⟨[call], .error (.searchFailed m)⟩
      | .ok results =>
        match decodeResults options.dslInfo results with
        | .error e => ⟨[call], .error (.decode e)⟩
        | .ok docs => ⟨[call], .ok docs⟩

/-- A search result offers a varchar column under the given name. -/
def hasVarCharField (fields : List RField) (name : String) : Prop :=
  ∃ values, (⟨name, .varChar values⟩ : RField) ∈ fields

-- ===========================================================================
-- Concrete fixtures used by witnesses and counterexamples (test inputs, not
-- source code)
-- ===========================================================================

/-- A conforming embedding provider: one 1-component vector per input. -/
def okEmbedder : Embedder := fun queries => .ok (queries.map (fun _ => [0]))

/-- A non-conforming provider returning N-1 vectors for N inputs. -/
def shortEmbedder : Embedder :=
  fun queries => .ok ((queries.map (fun _ => ([0] : List F64))).drop 1)

/-- A store whose upserts always succeed. -/
def upsertOkAll : Columns → Except String Unit := fun _ => .ok ()

/-- A store whose upsert fails exactly on the batch holding ID "b". -/
def upsertFailOnB : Columns → Except String Unit :=
  fun cols => if cols.ids = ["b"] then .error "boom" else .ok ()

/-- Twelve documents, for the batching scenario. -/
def docs12 : List Doc :=
  [⟨"d1", "c1"⟩, ⟨"d2", "c2"⟩, ⟨"d3", "c3"⟩, ⟨"d4", "c4"⟩,
   ⟨"d5", "c5"⟩, ⟨"d6", "c6"⟩, ⟨"d7", "c7"⟩, ⟨"d8", "c8"⟩,
   ⟨"d9", "c9"⟩, ⟨"d10", "c10"⟩, ⟨"d11", "c11"⟩, ⟨"d12", "c12"⟩]

/-- An indexer configuration with batch size 5 and a custom embedder. -/
def cfg12 : IndexerConfig :=
  { collection := "col", useBuiltin := false, vectorDim := 1, idMaxLen := 64,
    embedding := some okEmbedder, addBatchSize := 5 }

/-- The config `cfg12` with a negative batch size. -/
def cfgNegBatch : IndexerConfig := { cfg12 with addBatchSize := -1 }

/-- The config `cfg12` with batch size 1. -/
def cfgBatch1 : IndexerConfig := { cfg12 with addBatchSize := 1 }

/-- The config `cfg12` with the short (non-conforming) embedder. -/
def cfgShortEmb : IndexerConfig := { cfg12 with embedding := some shortEmbedder }

/-- A retriever configuration with TopK 3 and a custom embedder. -/
def rcfgBase : RetrieverConfig :=
  { collection := "c", index := "i", useBuiltin := false,
    embedding := some okEmbedder, partition := resolvePartition "p",
    topK := some 3, scoreThreshold := none, filterDSL := none }

/-- A well-formed singleton search result ("doc-1"/"hello", score 1). -/
def resultDoc1 : SearchResult :=
  { resultCount := 1,
    fields := [⟨defaultReturnFieldID, .varChar ["doc-1"]⟩,
               ⟨defaultReturnFieldContent, .varChar ["hello"]⟩],
    scores := [1] }

/-- A search result whose `content` field is missing. -/
def resultNoContent : SearchResult :=
  { resultCount := 1,
    fields := [⟨defaultReturnFieldID, .varChar ["doc-1"]⟩],
    scores := [1] }

-- ===========================================================================
-- Theorems
-- ===========================================================================

theorem chunkGo_flatten (size : Nat) (hk : 0 < size) :
    ∀ fuel (s : List α), s.length ≤ fuel →
      (chunkGo size fuel s).flatten = s := by
  intro fuel
  induction fuel with
  | zero =>
    intro s h
    have hs : s = [] := List.length_eq_zero.mp (Nat.le_zero.mp h)
    subst hs
    simp [chunkGo]
  | succ n ih =>
    intro s h
    by_cases hlt : size < s.length
    · have hdrop : (s.drop size).length ≤ n := by
        simp only [List.length_drop]; omega
      simp [chunkGo, hlt, ih _ hdrop]
    · by_cases hpos : 0 < s.length
      · simp [chunkGo, hlt, hpos]
      · have hs : s = [] := by
          cases s with
          | nil => rfl
          | cons a l => simp at hpos
        subst hs; simp [chunkGo]

theorem chunkGo_dvd_len (size : Nat) (hk : 0 < size) :
    ∀ fuel (s : List α), s.length ≤ fuel → s.length % size = 0 →
      ∀ c ∈ chunkGo size fuel s, c.length = size := by
  intro fuel
  induction fuel with
  | zero =>
    intro s h _hm
    have hs : s = [] := List.length_eq_zero.mp (Nat.le_zero.mp h)
    subst hs
    simp [chunkGo]
  | succ n ih =>
    intro s h hm
    by_cases hlt : size < s.length
    · have hdrop : (s.drop size).length ≤ n := by
        simp only [List.length_drop]; omega
      have hmod : (s.drop size).length % size = 0 := by
        have hsub : s.length - size + size = s.length :=
          Nat.sub_add_cancel (Nat.le_of_lt hlt)
        have : (s.length - size) % size = s.length % size := by
          conv_rhs => rw [← hsub]
          rw [Nat.add_mod_right]
        simp only [List.length_drop]
        omega
      intro c hc
      simp only [chunkGo, if_pos hlt, List.mem_cons] at hc
      rcases hc with rfl | hc
      · simp [List.length_take]; omega
      · exact ih _ hdrop hmod c hc
    · by_cases hpos : 0 < s.length
      · intro c hc
        simp only [chunkGo, if_neg hlt, if_pos hpos, List.mem_singleton] at hc
        have hdvd : size ∣ s.length := Nat.dvd_of_mod_eq_zero hm
        have hle := Nat.le_of_dvd hpos hdvd
        rw [hc]
        omega
      · intro c hc
        have hs : s = [] := by
          cases s with
          | nil => rfl
          | cons a l => simp at hpos
        subst hs
        simp [chunkGo] at hc

theorem chunkGo_last_mod (size : Nat) (hk : 0 < size) :
    ∀ fuel (s : List α), s.length ≤ fuel → s.length % size ≠ 0 →
      ∃ cs c, chunkGo size fuel s = cs ++ [c] ∧ (∀ x ∈ cs, x.length = size) ∧
        c.length = s.length % size := by
  intro fuel
  induction fuel with
  | zero =>
    intro s h hm
    have hs : s = [] := List.length_eq_zero.mp (Nat.le_zero.mp h)
    subst hs
    simp at hm
  | succ n ih =>
    intro s h hm
    by_cases hlt : size < s.length
    · have hdrop : (s.drop size).length ≤ n := by
        simp only [List.length_drop]; omega
      have hmodeq : (s.length - size) % size = s.length % size := by
        have hsub : s.length - size + size = s.length :=
          Nat.sub_add_cancel (Nat.le_of_lt hlt)
        conv_rhs => rw [← hsub]
        rw [Nat.add_mod_right]
      have hmod : (s.drop size).length % size ≠ 0 := by
        simp only [List.length_drop]
        rw [hmodeq]; exact hm
      obtain ⟨cs, c, heq, hcs, hc⟩ := ih (s.drop size) hdrop hmod
      refine ⟨s.take size :: cs, c, ?_, ?_, ?_⟩
      · simp [chunkGo, if_pos hlt, heq]
      · intro x hx
        rcases List.mem_cons.mp hx with rfl | hx
        · simp [List.length_take]; omega
        · exact hcs x hx
      · rw [hc]
        simp only [List.length_drop]
        rw [hmodeq]
    · by_cases hpos : 0 < s.length
      · refine ⟨[], s, ?_, by simp, ?_⟩
        · simp [chunkGo, if_neg hlt, if_pos hpos]
        · have hlt2 : s.length < size := by
            rcases Nat.lt_or_ge s.length size with h2 | h2
            · exact h2
            · exfalso
              have : s.length = size := by omega
              rw [this] at hm
              simp at hm
          rw [Nat.mod_eq_of_lt hlt2]
      · have hs : s = [] := by
          cases s with
          | nil => rfl
          | cons a l => simp at hpos
        subst hs
        simp at hm

/-- C3: for every sequence `S` and size `k > 0`, concatenating `chunk S k`
in order reproduces `S`; for `k ≤ 0` `chunk` returns no batches; when
`len(S) % k = 0` every batch has length `k`, and otherwise every batch but
the last has length `k` and the last has length `len(S) % k`. -/
theorem chunk_batching_spec (S : List α) (k : Int) :
    (k ≤ 0 → chunk S k = []) ∧
    (0 < k →
      (chunk S k).flatten = S ∧
      ((S.length : Int) % k = 0 → ∀ c ∈ chunk S k, (c.length : Int) = k) ∧
      ((S.length : Int) % k ≠ 0 →
        ∃ cs c, chunk S k = cs ++ [c] ∧ (∀ x ∈ cs, (x.length : Int) = k) ∧
          (c.length : Int) = (S.length : Int) % k)) := by
  constructor
  · intro hk
    simp [chunk, hk]
  · intro hk
    obtain ⟨n, rfl⟩ : ∃ n : Nat, k = (n : Int) :=
      ⟨k.toNat, (Int.toNat_of_nonneg hk.le).symm⟩
    have hn : 0 < n := by exact_mod_cast hk
    have hchunk : chunk S (n : Int) = chunkGo n S.length S := by
      simp [chunk, Int.toNat_natCast]
      omega
    have hcast : ((S.length : Int) % (n : Int)) = ((S.length % n : Nat) : Int) := by
      push_cast
      ring
    refine ⟨?_, ?_, ?_⟩
    · rw [hchunk]
      exact chunkGo_flatten n hn S.length S le_rfl
    · intro hm c hc
      rw [hchunk] at hc
      have hm' : S.length % n = 0 := by
        rw [hcast] at hm
        exact_mod_cast hm
      have := chunkGo_dvd_len n hn S.length S le_rfl hm' c hc
      exact_mod_cast this
    · intro hm
      have hm' : S.length % n ≠ 0 := by
        intro h0
        apply hm
        rw [hcast]
        exact_mod_cast h0
      obtain ⟨cs, c, heq, hcs, hc⟩ := chunkGo_last_mod n hn S.length S le_rfl hm'
      refine ⟨cs, c, by rw [hchunk]; exact heq, ?_, ?_⟩
      · intro x hx
        exact_mod_cast hcs x hx
      · rw [hcast]
        exact_mod_cast hc

/-- Witness for C3 at `S = [1,2,3,4,5]`, `k = 2` (a non-divisible case). -/
theorem chunk_batching_spec_witness :
    (chunk [1, 2, 3, 4, 5] (2 : Int)).flatten = [1, 2, 3, 4, 5] ∧
    (∃ cs c, chunk [1, 2, 3, 4, 5] (2 : Int) = cs ++ [c] ∧
      (∀ x ∈ cs, (x.length : Int) = 2) ∧
      (c.length : Int) = (([1, 2, 3, 4, 5] : List Nat).length : Int) % 2) :=
  ⟨((chunk_batching_spec [1, 2, 3, 4, 5] 2).2 (by decide)).1,
   ((chunk_batching_spec [1, 2, 3, 4, 5] 2).2 (by decide)).2.2 (by decide)⟩

/-- C9: constructing the indexer or the retriever passes the embedding
validation exactly when exactly one of {built-in embedding enabled, custom
embedder supplied} is configured: both or neither fail construction. -/
theorem embedding_config_mutual_exclusivity :
    (∀ config : IndexerConfig,
      (∃ u, newIndexerCheck config = .ok u) ↔
        (config.useBuiltin ≠ config.embedding.isSome)) ∧
    (∀ config : RetrieverConfig,
      (∃ u, newRetrieverCheck config = .ok u) ↔
        (config.useBuiltin ≠ config.embedding.isSome)) := by
  constructor
  · intro config
    rcases config with ⟨col, ub, vd, il, emb, ab⟩
    cases ub <;> cases emb <;> simp [newIndexerCheck]
  · intro config
    rcases config with ⟨col, idx, ub, emb, part, tk, st, dsl⟩
    cases ub <;> cases emb <;> simp [newRetrieverCheck]

/-- C10: the batch-size default (5) is applied at construction exactly when
the configured value is zero; with a negative batch size (which survives
construction) `Store` is a silent no-op: it returns an empty ID list and no
error, and issues no embedding and no upsert calls. -/
theorem negative_batch_size_silent_noop :
    (∀ config : IndexerConfig, config.addBatchSize ≠ 0 →
      (resolveIndexerConfig config).addBatchSize = config.addBatchSize) ∧
    (∀ config : IndexerConfig, config.addBatchSize = 0 →
      (resolveIndexerConfig config).addBatchSize = defaultAddBatchSize) ∧
    (∀ (config : IndexerConfig) (upsertFn : Columns → Except String Unit)
        (docs : List Doc) (co : ICallerOpts),
      config.addBatchSize < 0 → docs ≠ [] →
      Store config upsertFn docs co = ⟨[], [], .ok []⟩) := by
  refine ⟨?_, ?_, ?_⟩
  · intro config h
    simp [resolveIndexerConfig, h]
  · intro config h
    simp [resolveIndexerConfig, h]
  · intro config upsertFn docs co hneg _hdocs
    have hch : chunk docs config.addBatchSize = [] := by
      simp only [chunk, if_pos (le_of_lt hneg)]
    simp [Store, hch, storeBatches]

/-- Witness for C10: batch size -1 is kept at construction, and `Store` on a
non-empty document list is a silent no-op. -/
theorem negative_batch_size_silent_noop_witness :
    (resolveIndexerConfig cfgNegBatch).addBatchSize = -1 ∧
    Store cfgNegBatch upsertOkAll [⟨"a", "x"⟩] {} = ⟨[], [], .ok []⟩ :=
  ⟨negative_batch_size_silent_noop.1 cfgNegBatch (by decide),
   negative_batch_size_silent_noop.2.2 cfgNegBatch upsertOkAll [⟨"a", "x"⟩] {}
     (by decide) (by decide)⟩

/-- C1 (code bug): when neither the caller options nor the configuration set
top-K, `Retrieve` does not fall back to the documented default 100 (the
`defaultTopK` constant is never applied): after the query embeds
successfully it dereferences the nil configured TopK pointer — a runtime
panic — and no search is issued at all. -/
theorem retrieve_unset_topk_panics (config : RetrieverConfig)
    (searchFn : SearchCall → Except String (List SearchResult))
    (query : String) (co : RCallerOpts) (dense : List F32)
    (hcfg : config.topK = none) (_hco : co.topK = none)
    (hemb : customEmbeddingR query (getCommonOptions (baseROptions config) co) = .ok dense) :
    Retrieve config searchFn query co = ⟨[], .error .nilTopKPanic⟩ := by
  simp [Retrieve, hemb, hcfg]

/-- Witness for C1: TopK unset everywhere, working embedder — the call
panics instead of searching with top-K 100. -/
theorem retrieve_unset_topk_panics_witness :
    Retrieve { rcfgBase with topK := none } (fun _ => .ok []) "q" {} =
      ⟨[], .error .nilTopKPanic⟩ :=
  retrieve_unset_topk_panics { rcfgBase with topK := none } (fun _ => .ok []) "q" {}
    [0] rfl rfl (by decide)

/-- C2 (amended): whenever `Retrieve` reaches the store (the query embeds
and the configured TopK pointer is set), exactly one nearest-neighbor
search is issued, against the configured collection, requesting only the ID
and Content fields and using the L2 metric of the store — but it passes an
*empty* partition list (it is not scoped to the configured partition), and
the limit is the *configured* TopK, ignoring any caller-supplied top-K
option. -/
theorem retrieve_single_search_call (config : RetrieverConfig)
    (searchFn : SearchCall → Except String (List SearchResult))
    (query : String) (co : RCallerOpts) (dense : List F32) (k : Int)
    (hemb : customEmbeddingR query (getCommonOptions (baseROptions config) co) = .ok dense)
    (hk : config.topK = some k) :
    (Retrieve config searchFn query co).searchCalls =
      [{ collection := config.collection, partitions := [], expr := "",
         outputFields := [defaultReturnFieldID, defaultReturnFieldContent],
         vectors := [dense], vectorField := defaultFieldVector,
         metric := "L2", topK := k }] := by
  simp only [Retrieve, hemb, hk]
  split <;> (try split) <;> rfl

/-- Witness for the amended C2 at a concrete configuration. -/
theorem retrieve_single_search_call_witness :
    (Retrieve rcfgBase (fun _ => .ok []) "q" {}).searchCalls =
      [{ collection := rcfgBase.collection, partitions := [], expr := "",
         outputFields := [defaultReturnFieldID, defaultReturnFieldContent],
         vectors := [[0]], vectorField := defaultFieldVector,
         metric := "L2", topK := 3 }] :=
  retrieve_single_search_call rcfgBase (fun _ => .ok []) "q" {} [0] 3
    (by decide) rfl

/-- Counterexample for C2 as stated: with configured partition "p" and a
caller-supplied top-K of 7 overlaid on a configured top-K of 3, the issued
search carries an empty partition list (not `["p"]`) and limit 3 (not the
resolved top-K 7). -/
theorem retrieve_search_scoping_counterexample :
    (Retrieve rcfgBase (fun _ => .ok []) "q" { topK := some 7 }).searchCalls.map
        (fun c => c.partitions) = [[]] ∧
    ([[]] : List (List String)) ≠ [[rcfgBase.partition]] ∧
    (getCommonOptions (baseROptions rcfgBase) { topK := some 7 }).topK = some 7 ∧
    (Retrieve rcfgBase (fun _ => .ok []) "q" { topK := some 7 }).searchCalls.map
        (fun c => c.topK) = [3] ∧
    (3 : Int) ≠ 7 := by
  refine ⟨?_, by decide, rfl, ?_, by decide⟩
  · rfl
  · rfl

theorem chunk_flatten (S : List α) (k : Int) (hk : 0 < k) :
    (chunk S k).flatten = S := by
  have hn : (0 : Int) < (k.toNat : Int) := by omega
  have hpos : 0 < k.toNat := by exact_mod_cast hn
  have hch : chunk S k = chunkGo k.toNat S.length S := by
    simp only [chunk, if_neg (not_le.mpr hk)]
  rw [hch]
  exact chunkGo_flatten k.toNat hpos S.length S le_rfl

theorem storeBatches_ok (embOpt : Option Embedder) (dim : Int)
    (upsertFn : Columns → Except String Unit) :
    ∀ (bs : List (List Doc)) (ids : List String),
      (storeBatches embOpt dim upsertFn bs).result = .ok ids →
      ids = (bs.map (fun b => iter b (fun d => d.id))).flatten ∧
      (storeBatches embOpt dim upsertFn bs).upsertCalls.length = bs.length := by
  intro bs
  induction bs with
  | nil =>
    intro ids h
    simp [storeBatches] at h ⊢
    exact h
  | cons b rest ih =>
    intro ids h
    cases hcv : convertDocuments embOpt dim b with
    | error e =>
      rw [show storeBatches embOpt dim upsertFn (b :: rest) =
            ⟨[iter b (fun doc => doc.content)], [], .error (.convertFailed e)⟩ by
          simp [storeBatches, hcv]] at h
      cases h
    | ok cols =>
      cases hup : upsertFn cols with
      | error m =>
        rw [show storeBatches embOpt dim upsertFn (b :: rest) =
              ⟨[iter b (fun doc => doc.content)], [cols], .error (.upsertFailed m)⟩ by
            simp [storeBatches, hcv, hup]] at h
        cases h
      | ok u =>
        cases u
        have hrun : storeBatches embOpt dim upsertFn (b :: rest) =
            ⟨iter b (fun doc => doc.content) ::
               (storeBatches embOpt dim upsertFn rest).embedCalls,
             cols :: (storeBatches embOpt dim upsertFn rest).upsertCalls,
             match (storeBatches embOpt dim upsertFn rest).result with
             | .ok ids => .ok (iter b (fun t => t.id) ++ ids)
             | .error e => .error e⟩ := by
          simp [storeBatches, hcv, hup]
        rw [hrun] at h
        cases hres : (storeBatches embOpt dim upsertFn rest).result with
        | error e =>
          rw [hres] at h
          cases h
        | ok ids0 =>
          rw [hres] at h
          obtain ⟨hids0, hlen⟩ := ih ids0 hres
          have hids : ids = iter b (fun t => t.id) ++ ids0 := by
            cases h
            rfl
          refine ⟨?_, ?_⟩
          · rw [hids, hids0]
            simp
          · rw [hrun]
            simp [hlen]

theorem storeBatches_append (embOpt : Option Embedder) (dim : Int)
    (upsertFn : Columns → Except String Unit) :
    ∀ (pre rest : List (List Doc)),
      (∀ x ∈ pre, batchOk embOpt dim upsertFn x) →
      (storeBatches embOpt dim upsertFn (pre ++ rest)).embedCalls =
        pre.map (fun x => iter x (fun d => d.content)) ++
          (storeBatches embOpt dim upsertFn rest).embedCalls ∧
      (storeBatches embOpt dim upsertFn (pre ++ rest)).upsertCalls =
        pre.filterMap (colsOf embOpt dim) ++
          (storeBatches embOpt dim upsertFn rest).upsertCalls ∧
      (storeBatches embOpt dim upsertFn (pre ++ rest)).result =
        (match (storeBatches embOpt dim upsertFn rest).result with
         | .ok ids => .ok ((pre.map (fun x => iter x (fun d => d.id))).flatten ++ ids)
         | .error e => .error e) := by
  intro pre
  induction pre with
  | nil =>
    intro rest _
    refine ⟨by simp, by simp, ?_⟩
    cases hres : (storeBatches embOpt dim upsertFn rest).result <;> simp [hres]
  | cons b pre ih =>
    intro rest hok
    obtain ⟨cols, hcv, hup⟩ := hok b (by simp)
    have hpre : ∀ x ∈ pre, batchOk embOpt dim upsertFn x := by
      intro x hx
      exact hok x (by simp [hx])
    obtain ⟨ihe, ihu, ihr⟩ := ih rest hpre
    have hrun : storeBatches embOpt dim upsertFn (b :: (pre ++ rest)) =
        ⟨iter b (fun doc => doc.content) ::
           (storeBatches embOpt dim upsertFn (pre ++ rest)).embedCalls,
         cols :: (storeBatches embOpt dim upsertFn (pre ++ rest)).upsertCalls,
         match (storeBatches embOpt dim upsertFn (pre ++ rest)).result with
         | .ok ids => .ok (iter b (fun t => t.id) ++ ids)
         | .error e => .error e⟩ := by
      simp [storeBatches, hcv, hup]
    have hcols : colsOf embOpt dim b = some cols := by
      simp [colsOf, hcv, Except.toOption]
    refine ⟨?_, ?_, ?_⟩
    · rw [List.cons_append, hrun]
      simp [ihe]
    · rw [List.cons_append, hrun]
      simp [hcols, ihu]
    · rw [List.cons_append, hrun]
      cases hres : (storeBatches embOpt dim upsertFn rest).result with
      | ok ids =>
        rw [hres] at ihr
        simp [ihr]
      | error e =>
        rw [hres] at ihr
        simp [ihr]

theorem storeBatches_error_decomp (embOpt : Option Embedder) (dim : Int)
    (upsertFn : Columns → Except String Unit) :
    ∀ (bs : List (List Doc)) (e : StoreErr),
      (storeBatches embOpt dim upsertFn bs).result = .error e →
      ∃ pre b post, bs = pre ++ b :: post ∧
        (∀ x ∈ pre, batchOk embOpt dim upsertFn x) ∧
        ¬ batchOk embOpt dim upsertFn b ∧
        (storeBatches embOpt dim upsertFn bs).embedCalls =
          (pre ++ [b]).map (fun x => iter x (fun d => d.content)) ∧
        (storeBatches embOpt dim upsertFn bs).upsertCalls =
          (pre ++ [b]).filterMap (colsOf embOpt dim) ∧
        ((∃ e0, convertDocuments embOpt dim b = .error e0 ∧ e = .convertFailed e0) ∨
         (∃ cols m, convertDocuments embOpt dim b = .ok cols ∧ upsertFn cols = .error m ∧
            e = .upsertFailed m)) := by
  intro bs
  induction bs with
  | nil =>
    intro e h
    simp [storeBatches] at h
  | cons b rest ih =>
    intro e h
    cases hcv : convertDocuments embOpt dim b with
    | error e0 =>
      have hrun : storeBatches embOpt dim upsertFn (b :: rest) =
          ⟨[iter b (fun doc => doc.content)], [], .error (.convertFailed e0)⟩ := by
        simp [storeBatches, hcv]
      rw [hrun] at h
      have he : e = .convertFailed e0 := by
        cases h
        rfl
      refine ⟨[], b, rest, rfl, by simp, ?_, ?_, ?_, ?_⟩
      · rintro ⟨cols, hc, _⟩
        rw [hcv] at hc
        cases hc
      · rw [hrun]
        simp
      · rw [hrun]
        simp [colsOf, hcv, Except.toOption]
      · exact Or.inl ⟨e0, hcv, he⟩
    | ok cols =>
      cases hup : upsertFn cols with
      | error m =>
        have hrun : storeBatches embOpt dim upsertFn (b :: rest) =
            ⟨[iter b (fun doc => doc.content)], [cols], .error (.upsertFailed m)⟩ := by
          simp [storeBatches, hcv, hup]
        rw [hrun] at h
        have he : e = .upsertFailed m := by
          cases h
          rfl
        refine ⟨[], b, rest, rfl, by simp, ?_, ?_, ?_, ?_⟩
        · rintro ⟨cols2, hc, hu⟩
          rw [hcv] at hc
          cases hc
          rw [hup] at hu
          cases hu
        · rw [hrun]
          simp
        · rw [hrun]
          simp [colsOf, hcv, Except.toOption]
        · exact Or.inr ⟨cols, m, hcv, hup, he⟩
      | ok u =>
        cases u
        have hrun : storeBatches embOpt dim upsertFn (b :: rest) =
            ⟨iter b (fun doc => doc.content) ::
               (storeBatches embOpt dim upsertFn rest).embedCalls,
             cols :: (storeBatches embOpt dim upsertFn rest).upsertCalls,
             match (storeBatches embOpt dim upsertFn rest).result with
             | .ok ids => .ok (iter b (fun t => t.id) ++ ids)
             | .error er => .error er⟩ := by
          simp [storeBatches, hcv, hup]
        rw [hrun] at h
        cases hres : (storeBatches embOpt dim upsertFn rest).result with
        | ok ids0 =>
          rw [hres] at h
          cases h
        | error e1 =>
          rw [hres] at h
          have he : e1 = e := by
            cases h
            rfl
          subst he
          obtain ⟨pre, bb, post, hsplit, hpre, hbad, hec, huc, hshape⟩ := ih e1 hres
          refine ⟨b :: pre, bb, post, by simp [hsplit], ?_, hbad, ?_, ?_, hshape⟩
          · intro x hx
            rcases List.mem_cons.mp hx with rfl | hx
            · exact ⟨cols, hcv, hup⟩
            · exact hpre x hx
          · rw [hrun]
            simp [hec]
          · rw [hrun]
            simp [huc, colsOf, hcv, Except.toOption]

/-- C6: when any batch of a `Store` call fails (embedding or upsert), the
call aborts at that batch — all earlier batches succeeded, embedding calls
stop at the failing batch — returns a single error wrapping the underlying
cause with its step context (`convertFailed` / `upsertFailed`), returns no
IDs (the `Except.error` result carries none, matching the source line
`return nil, err`), and the upsert calls remain exactly the batches already
written, each issued once (no rollback, no retry). -/
theorem store_failure_aborts (config : IndexerConfig)
    (upsertFn : Columns → Except String Unit) (docs : List Doc)
    (co : ICallerOpts) (e : StoreErr)
    (h : (Store config upsertFn docs co).result = .error e) :
    ∃ pre b post,
      chunk docs config.addBatchSize = pre ++ b :: post ∧
      (∀ x ∈ pre,
        batchOk (indexerEffectiveEmbedding config co) config.vectorDim upsertFn x) ∧
      ¬ batchOk (indexerEffectiveEmbedding config co) config.vectorDim upsertFn b ∧
      (Store config upsertFn docs co).embedCalls =
        (pre ++ [b]).map (fun x => iter x (fun d => d.content)) ∧
      (Store config upsertFn docs co).upsertCalls =
        (pre ++ [b]).filterMap (colsOf (indexerEffectiveEmbedding config co) config.vectorDim) ∧
      ((∃ e0, convertDocuments (indexerEffectiveEmbedding config co) config.vectorDim b =
          .error e0 ∧ e = .convertFailed e0) ∨
       (∃ cols m, convertDocuments (indexerEffectiveEmbedding config co) config.vectorDim b =
          .ok cols ∧ upsertFn cols = .error m ∧ e = .upsertFailed m)) :=
  storeBatches_error_decomp (indexerEffectiveEmbedding config co) config.vectorDim upsertFn
    (chunk docs config.addBatchSize) e h

/-- Witness for C6: two batches of one document; the second upsert fails,
so the call errors with `Upsert failed`, the first batch stays written, and
no third step runs. -/
theorem store_failure_aborts_witness :
    ∃ pre b post,
      chunk [(⟨"a", "x"⟩ : Doc), ⟨"b", "y"⟩] cfgBatch1.addBatchSize = pre ++ b :: post ∧
      (∀ x ∈ pre,
        batchOk (indexerEffectiveEmbedding cfgBatch1 {}) cfgBatch1.vectorDim upsertFailOnB x) ∧
      ¬ batchOk (indexerEffectiveEmbedding cfgBatch1 {}) cfgBatch1.vectorDim upsertFailOnB b ∧
      (Store cfgBatch1 upsertFailOnB [⟨"a", "x"⟩, ⟨"b", "y"⟩] {}).embedCalls =
        (pre ++ [b]).map (fun x => iter x (fun d => d.content)) ∧
      (Store cfgBatch1 upsertFailOnB [⟨"a", "x"⟩, ⟨"b", "y"⟩] {}).upsertCalls =
        (pre ++ [b]).filterMap
          (colsOf (indexerEffectiveEmbedding cfgBatch1 {}) cfgBatch1.vectorDim) ∧
      ((∃ e0, convertDocuments (indexerEffectiveEmbedding cfgBatch1 {}) cfgBatch1.vectorDim b =
          .error e0 ∧ StoreErr.upsertFailed "boom" = .convertFailed e0) ∨
       (∃ cols m, convertDocuments (indexerEffectiveEmbedding cfgBatch1 {}) cfgBatch1.vectorDim b =
          .ok cols ∧ upsertFailOnB cols = .error m ∧
          StoreErr.upsertFailed "boom" = .upsertFailed m)) :=
  store_failure_aborts cfgBatch1 upsertFailOnB [⟨"a", "x"⟩, ⟨"b", "y"⟩] {}
    (.upsertFailed "boom") (by decide)

/-- C5 (amended): for a positive configured batch size, whenever `Store`
succeeds the returned ID list is the concatenation of all input document
IDs in original input order, and one upsert call is issued per batch. -/
theorem store_success_returns_all_ids (config : IndexerConfig)
    (upsertFn : Columns → Except String Unit) (docs : List Doc)
    (co : ICallerOpts) (ids : List String)
    (hpos : 0 < config.addBatchSize)
    (h : (Store config upsertFn docs co).result = .ok ids) :
    ids = iter docs (fun d => d.id) ∧
    (Store config upsertFn docs co).upsertCalls.length =
      (chunk docs config.addBatchSize).length := by
  obtain ⟨hids, hlen⟩ :=
    storeBatches_ok (indexerEffectiveEmbedding config co) config.vectorDim upsertFn
      (chunk docs config.addBatchSize) ids h
  refine ⟨?_, hlen⟩
  rw [hids]
  have hfl : (chunk docs config.addBatchSize).flatten = docs :=
    chunk_flatten docs config.addBatchSize hpos
  calc ((chunk docs config.addBatchSize).map (fun b => iter b (fun d => d.id))).flatten
      = (chunk docs config.addBatchSize).flatten.map (fun d => d.id) := by
        simp only [iter]
        exact (List.map_flatten _ _).symm
    _ = iter docs (fun d => d.id) := by rw [hfl]; rfl

/-- Witness for the amended C5, which is also the scenario of the spec:
12 documents at batch size 5 give 3 batches of sizes 5, 5, 2, exactly 3
upsert calls, and the 12 IDs back in original order. -/
theorem store_success_returns_all_ids_witness :
    (["d1", "d2", "d3", "d4", "d5", "d6", "d7", "d8", "d9", "d10", "d11", "d12"] =
      iter docs12 (fun d => d.id) ∧
     (Store cfg12 upsertOkAll docs12 {}).upsertCalls.length =
       (chunk docs12 cfg12.addBatchSize).length) ∧
    (chunk docs12 cfg12.addBatchSize).map List.length = [5, 5, 2] ∧
    (chunk docs12 cfg12.addBatchSize).length = 3 :=
  ⟨store_success_returns_all_ids cfg12 upsertOkAll docs12 {}
      ["d1", "d2", "d3", "d4", "d5", "d6", "d7", "d8", "d9", "d10", "d11", "d12"]
      (by decide) (by decide),
   by decide, by decide⟩

/-- Counterexample for C5 as stated: an indexer constructed with a negative
batch size (which construction leaves untouched) makes `Store` succeed on a
non-empty input while returning an ID list that is *not* the input IDs. -/
theorem store_success_counterexample :
    (resolveIndexerConfig cfgNegBatch).addBatchSize = -1 ∧
    (Store cfgNegBatch upsertOkAll [⟨"a", "x"⟩] {}).result = .ok [] ∧
    iter [(⟨"a", "x"⟩ : Doc)] (fun d => d.id) ≠ [] := by
  refine ⟨by decide, by decide, by decide⟩

/-- C4: a batch whose embedding provider returns a vector count different
from the batch size makes the call fail with the count-mismatch error and
issues no upsert for that batch; on the retrieval side, a query embedding
returning a count other than 1 fails the call before any search is issued. -/
theorem embedding_count_mismatch_rejected :
    (∀ (config : IndexerConfig) (upsertFn : Columns → Except String Unit)
        (docs : List Doc) (co : ICallerOpts) (pre post : List (List Doc))
        (b : List Doc) (embF : Embedder) (vs : List (List F64)),
      chunk docs config.addBatchSize = pre ++ b :: post →
      (∀ x ∈ pre,
        batchOk (indexerEffectiveEmbedding config co) config.vectorDim upsertFn x) →
      indexerEffectiveEmbedding config co = some embF →
      embF (iter b (fun d => d.content)) = .ok vs →
      vs.length ≠ b.length →
      (Store config upsertFn docs co).result = .error (.convertFailed .countMismatch) ∧
      (Store config upsertFn docs co).upsertCalls =
        pre.filterMap (colsOf (indexerEffectiveEmbedding config co) config.vectorDim)) ∧
    (∀ (config : RetrieverConfig)
        (searchFn : SearchCall → Except String (List SearchResult))
        (query : String) (co : RCallerOpts) (embF : Embedder) (vs : List (List F64)),
      (getCommonOptions (baseROptions config) co).embedding = some embF →
      embF [query] = .ok vs →
      vs.length ≠ 1 →
      Retrieve config searchFn query co = ⟨[], .error (.embed .countMismatch)⟩) := by
  constructor
  · intro config upsertFn docs co pre post b embF vs hsplit hpre heff hvs hne
    have hconv : convertDocuments (indexerEffectiveEmbedding config co) config.vectorDim b =
        .error .countMismatch := by
      have hqlen : (iter b (fun d => d.content)).length = b.length := by
        simp [iter]
      simp only [convertDocuments, customEmbeddingI, heff, hvs]
      rw [if_pos (by rw [hqlen]; exact hne)]
    have hfail : storeBatches (indexerEffectiveEmbedding config co) config.vectorDim upsertFn
        (b :: post) =
        ⟨[iter b (fun doc => doc.content)], [], .error (.convertFailed .countMismatch)⟩ := by
      simp [storeBatches, hconv]
    obtain ⟨_, hu, hr⟩ :=
      storeBatches_append (indexerEffectiveEmbedding config co) config.vectorDim upsertFn
        pre (b :: post) hpre
    constructor
    · show (storeBatches _ _ _ (chunk docs config.addBatchSize)).result = _
      rw [hsplit, hr, hfail]
    · show (storeBatches _ _ _ (chunk docs config.addBatchSize)).upsertCalls = _
      rw [hsplit, hu, hfail]
      simp
  · intro config searchFn query co embF vs hopt hvs hne
    have hce : customEmbeddingR query (getCommonOptions (baseROptions config) co) =
        .error (.embed .countMismatch) := by
      simp only [customEmbeddingR, hopt, hvs]
      rw [if_pos hne]
    simp [Retrieve, hce]

/-- Witness for C4: the N-1-vector stub embedder fails a one-document
`Store` (no upsert issued) and fails `Retrieve` (no search issued). -/
theorem embedding_count_mismatch_rejected_witness :
    ((Store cfgShortEmb upsertOkAll [⟨"a", "x"⟩] {}).result =
        .error (.convertFailed .countMismatch) ∧
     (Store cfgShortEmb upsertOkAll [⟨"a", "x"⟩] {}).upsertCalls =
       List.filterMap
         (colsOf (indexerEffectiveEmbedding cfgShortEmb {}) cfgShortEmb.vectorDim) []) ∧
    Retrieve { rcfgBase with embedding := some shortEmbedder } (fun _ => .ok []) "q" {} =
      ⟨[], .error (.embed .countMismatch)⟩ :=
  ⟨embedding_count_mismatch_rejected.1 cfgShortEmb upsertOkAll [⟨"a", "x"⟩] {}
      [] [] [⟨"a", "x"⟩] shortEmbedder [] (by decide) (by simp) rfl (by decide) (by decide),
   embedding_count_mismatch_rejected.2 { rcfgBase with embedding := some shortEmbedder }
      (fun _ => .ok []) "q" {} shortEmbedder [] rfl (by decide) (by decide)⟩

theorem hasVarCharField_cons (f : RField) (rest : List RField) (n : String) :
    hasVarCharField (f :: rest) n ↔
      (∃ v, f = ⟨n, .varChar v⟩) ∨ hasVarCharField rest n := by
  simp [hasVarCharField, List.mem_cons, exists_or, eq_comm]

theorem pickFold_fst_none (fields : List RField) :
    ∀ acc : Option (List String) × Option (List String),
      (fields.foldl pickStep acc).1 = none ↔
        acc.1 = none ∧ ¬ hasVarCharField fields defaultReturnFieldID := by
  induction fields with
  | nil =>
    intro acc
    simp [hasVarCharField]
  | cons f rest ih =>
    intro acc
    obtain ⟨fname, fdata⟩ := f
    rw [List.foldl_cons]
    by_cases hid : fname = defaultReturnFieldID
    · cases fdata with
      | varChar c =>
        have hstep : pickStep acc ⟨fname, .varChar c⟩ = (some c, acc.2) := by
          simp [pickStep, hid]
        have hhas : hasVarCharField (⟨fname, .varChar c⟩ :: rest) defaultReturnFieldID :=
          ⟨c, by rw [← hid]; exact List.mem_cons_self _ _⟩
        rw [hstep, ih]
        simp [hhas]
      | other =>
        have hstep : pickStep acc ⟨fname, .other⟩ = acc := by
          simp [pickStep, hid]
        rw [hstep, ih, hasVarCharField_cons]
        simp
    · by_cases hcon : fname = defaultReturnFieldContent
      · cases fdata with
        | varChar c =>
          have hstep : pickStep acc ⟨fname, .varChar c⟩ = (acc.1, some c) := by
            simp [pickStep, hid, hcon,
              show ¬ defaultReturnFieldContent = defaultReturnFieldID by decide]
          rw [hstep, ih, hasVarCharField_cons]
          simp [hid]
        | other =>
          have hstep : pickStep acc ⟨fname, .other⟩ = acc := by
            simp [pickStep, hid, hcon]
          rw [hstep, ih, hasVarCharField_cons]
          simp [hid]
      · have hstep : pickStep acc ⟨fname, fdata⟩ = acc := by
          simp [pickStep, hid, hcon]
        rw [hstep, ih, hasVarCharField_cons]
        simp [hid]

theorem pickFold_snd_none (fields : List RField) :
    ∀ acc : Option (List String) × Option (List String),
      (fields.foldl pickStep acc).2 = none ↔
        acc.2 = none ∧ ¬ hasVarCharField fields defaultReturnFieldContent := by
  have hne : defaultReturnFieldID ≠ defaultReturnFieldContent := by decide
  induction fields with
  | nil =>
    intro acc
    simp [hasVarCharField]
  | cons f rest ih =>
    intro acc
    obtain ⟨fname, fdata⟩ := f
    rw [List.foldl_cons]
    by_cases hid : fname = defaultReturnFieldID
    · cases fdata with
      | varChar c =>
        have hstep : pickStep acc ⟨fname, .varChar c⟩ = (some c, acc.2) := by
          simp [pickStep, hid]
        rw [hstep, ih, hasVarCharField_cons]
        simp [hid, hne]
      | other =>
        have hstep : pickStep acc ⟨fname, .other⟩ = acc := by
          simp [pickStep, hid]
        rw [hstep, ih, hasVarCharField_cons]
        simp
    · by_cases hcon : fname = defaultReturnFieldContent
      · cases fdata with
        | varChar c =>
          have hstep : pickStep acc ⟨fname, .varChar c⟩ = (acc.1, some c) := by
            simp [pickStep, hid, hcon,
              show ¬ defaultReturnFieldContent = defaultReturnFieldID by decide]
          have hhas : hasVarCharField (⟨fname, .varChar c⟩ :: rest) defaultReturnFieldContent :=
            ⟨c, by rw [← hcon]; exact List.mem_cons_self _ _⟩
          rw [hstep, ih]
          simp [hhas]
        | other =>
          have hstep : pickStep acc ⟨fname, .other⟩ = acc := by
            simp [pickStep, hid, hcon]
          rw [hstep, ih, hasVarCharField_cons]
          simp
      · have hstep : pickStep acc ⟨fname, fdata⟩ = acc := by
          simp [pickStep, hid, hcon]
        rw [hstep, ih, hasVarCharField_cons]
        simp [hcon]

theorem decodeResults_error_of_mem (dsl : Option DSL) :
    ∀ (results : List SearchResult) (data : SearchResult), data ∈ results →
      ∀ e0, data2Document data = .error e0 →
      ∃ e, decodeResults dsl results = .error e := by
  intro results
  induction results with
  | nil =>
    intro data h
    cases h
  | cons r rest ih =>
    intro data hmem e0 hd
    cases hdr : data2Document r with
    | error e1 =>
      exact ⟨e1, by simp [decodeResults, hdr]⟩
    | ok doc =>
      rcases List.mem_cons.mp hmem with rfl | hmem2
      · rw [hd] at hdr
        cases hdr
      · obtain ⟨e, he⟩ := ih data hmem2 e0 hd
        refine ⟨e, ?_⟩
        simp [decodeResults, hdr, he]

/-- C7: a search result whose ID or content field is absent (or present
only with a non-varchar column type), or which carries zero rows, makes
`data2Document` fail with the `result field not math` error, and a
`Retrieve` whose search returns such a result yields an error and no
documents. -/
theorem decode_rejects_malformed_result :
    (∀ data : SearchResult,
      (¬ hasVarCharField data.fields defaultReturnFieldID ∨
       ¬ hasVarCharField data.fields defaultReturnFieldContent ∨
       data.resultCount = 0) →
      data2Document data = .error .fieldNotMatch) ∧
    (∀ (config : RetrieverConfig) (query : String) (co : RCallerOpts)
        (dense : List F32) (k : Int) (results : List SearchResult) (data : SearchResult),
      customEmbeddingR query (getCommonOptions (baseROptions config) co) = .ok dense →
      config.topK = some k →
      data ∈ results →
      (¬ hasVarCharField data.fields defaultReturnFieldID ∨
       ¬ hasVarCharField data.fields defaultReturnFieldContent ∨
       data.resultCount = 0) →
      ∃ e, (Retrieve config (fun _ => .ok results) query co).result =
        .error (.decode e)) := by
  have hfirst : ∀ data : SearchResult,
      (¬ hasVarCharField data.fields defaultReturnFieldID ∨
       ¬ hasVarCharField data.fields defaultReturnFieldContent ∨
       data.resultCount = 0) →
      data2Document data = .error .fieldNotMatch := by
    intro data hbad
    rcases hp : pickVarCharColumns data.fields with ⟨o1, o2⟩
    rcases hbad with hb | hb | hb
    · have h1 : o1 = none := by
        have h0 := (pickFold_fst_none data.fields (none, none)).mpr ⟨rfl, hb⟩
        rw [show (data.fields.foldl pickStep (none, none)) =
              pickVarCharColumns data.fields from rfl, hp] at h0
        exact h0
      subst h1
      cases o2 <;> simp [data2Document, hp]
    · have h2 : o2 = none := by
        have h0 := (pickFold_snd_none data.fields (none, none)).mpr ⟨rfl, hb⟩
        rw [show (data.fields.foldl pickStep (none, none)) =
              pickVarCharColumns data.fields from rfl, hp] at h0
        exact h0
      subst h2
      cases o1 <;> simp [data2Document, hp]
    · cases o1 <;> cases o2 <;> simp [data2Document, hp, hb]
  refine ⟨hfirst, ?_⟩
  intro config query co dense k results data hemb hk hmem hbad
  obtain ⟨e, he⟩ := decodeResults_error_of_mem
    (getCommonOptions (baseROptions config) co).dslInfo results data hmem
    .fieldNotMatch (hfirst data hbad)
  refine ⟨e, ?_⟩
  simp [Retrieve, hemb, hk, he]

/-- Witness for C7: a result missing the `content` field is rejected by the
decoder, and a `Retrieve` seeing it returns an error. -/
theorem decode_rejects_malformed_result_witness :
    data2Document resultNoContent = .error .fieldNotMatch ∧
    (∃ e, (Retrieve rcfgBase (fun _ => .ok [resultNoContent]) "q" {}).result =
      .error (.decode e)) :=
  ⟨decode_rejects_malformed_result.1 resultNoContent
      (Or.inr (Or.inl (by simp [hasVarCharField, resultNoContent]; decide))),
   decode_rejects_malformed_result.2 rcfgBase "q" {} [0] 3 [resultNoContent]
      resultNoContent (by decide) rfl (by simp)
      (Or.inr (Or.inl (by simp [hasVarCharField, resultNoContent]; decide)))⟩

/-- C8: a non-empty, well-projected search result is decoded into exactly
one document, built from row 0 only — its ID and content are the row-0
column values, its score is `Scores[0]`, and it carries the resolved filter
expression as metadata; later rows (`irest`, `crest`, `srest`) do not
appear in the output even when top-K > 1. -/
theorem retrieve_decodes_first_row_only (config : RetrieverConfig)
    (query : String) (co : RCallerOpts) (dense : List F32) (k : Int)
    (data : SearchResult) (i0 c0 : String) (irest crest : List String)
    (s0 : F32) (srest : List F32)
    (hemb : customEmbeddingR query (getCommonOptions (baseROptions config) co) = .ok dense)
    (hk : config.topK = some k)
    (hpick : pickVarCharColumns data.fields = (some (i0 :: irest), some (c0 :: crest)))
    (hrc : data.resultCount ≠ 0)
    (hsc : data.scores = s0 :: srest) :
    data2Document data = .ok ⟨i0, c0, s0, none⟩ ∧
    (Retrieve config (fun _ => .ok [data]) query co).result =
      .ok [⟨i0, c0, s0, (getCommonOptions (baseROptions config) co).dslInfo⟩] := by
  have hd : data2Document data = .ok ⟨i0, c0, s0, none⟩ := by
    simp [data2Document, hpick, hrc, valueByIdx, hsc]
  refine ⟨hd, ?_⟩
  simp [Retrieve, hemb, hk, decodeResults, hd]

/-- Witness for C8: the retrieval scenario of the spec — one stored document
"doc-1"/"hello" comes back as one document with a populated score. -/
theorem retrieve_decodes_first_row_only_witness :
    data2Document resultDoc1 = .ok ⟨"doc-1", "hello", 1, none⟩ ∧
    (Retrieve rcfgBase (fun _ => .ok [resultDoc1]) "q" {}).result =
      .ok [⟨"doc-1", "hello", 1, (getCommonOptions (baseROptions rcfgBase) {}).dslInfo⟩] :=
  retrieve_decodes_first_row_only rcfgBase "q" {} [0] 3 resultDoc1
    "doc-1" "hello" [] [] 1 [] (by decide) rfl (by decide) (by decide) (by decide)
